import Mathlib

/-!
# Verification model of the AudioStore repository

Shallow embedding of the chunked audio store (`src/lib/audiostore.js`,
`src/lib/db.js`), the playback channel (`src/unnamed/part_001`, class
`Streamer`) and the multi-channel coordinator
(`src/lib/streamcoordinator.js`).

Modelling conventions:
* JavaScript numbers are modelled as exact rationals (`ℚ`); sample
  positions and counts are `ℕ`/`ℤ`.  Float64 rounding is outside the
  model.  In Web Audio, `AudioBuffer.duration` is `length / sampleRate`
  by definition, so `duration * sampleRate` is exactly the sample count.
* Audio samples are rationals; only their identity matters.
* JavaScript `null` is modelled as `Option.none`; arithmetic coerces
  `null` to `0`, and `x || y` treats both `null` and `0` as falsy.
* IndexedDB object stores are modelled as lists of records searched from
  the front; `put` (upsert) prepends, so the newest record with a given
  key is the one found.  The records written by a single save have
  pairwise distinct keys.
* A chunk id `` `${name}-${seconds}` `` is modelled as the pair
  `(name, seconds)`.
-/

namespace AudioStoreModel

/-- JavaScript `Math.trunc` on an exact rational (round toward zero). -/
def jsTrunc (q : ℚ) : ℤ := if 0 ≤ q then ⌊q⌋ else ⌈q⌉

/-- JavaScript `%` on exact rationals: `a - b * trunc (a / b)`. -/
def jsRem (a b : ℚ) : ℚ := a - b * jsTrunc (a / b)

/-- An integer multiple of `b` has JavaScript remainder `0` mod `b`. -/
theorem jsRem_int_mul (m : ℤ) (b : ℚ) (hb : b ≠ 0) : jsRem (m * b) b = 0 := by
  have hdiv : (m : ℚ) * b / b = (m : ℚ) := by
    field_simp
  have htr : jsTrunc ((m : ℚ) * b / b) = m := by
    rw [hdiv]
    unfold jsTrunc
    rcases le_or_lt 0 (m : ℚ) with h | h
    · simp [h]
    · rw [if_neg (not_le.mpr h)]
      exact Int.ceil_intCast m
  unfold jsRem
  rw [htr]
  ring

/-- A decoded audio asset (Web Audio `AudioBuffer`): a sample rate and
per-channel sample sequences. -/
structure AudioBuffer where
  rate : ℕ
  data : List (List ℚ)
  deriving Repr, DecidableEq

/-- `AudioBuffer.length` — the per-channel sample count. -/
def AudioBuffer.length (ab : AudioBuffer) : ℕ := (ab.data.headD []).length

/-- `AudioBuffer.duration = length / sampleRate` (Web Audio definition). -/
def AudioBuffer.duration (ab : AudioBuffer) : ℚ := (ab.length : ℚ) / (ab.rate : ℚ)

/-- A persisted chunk record (`#audioBufferToRecords` output).  The JS id
string `` `${name}-${seconds}` `` is the key pair `(name, seconds)`. -/
structure ChunkRecord where
  name : String
  rate : ℕ
  seconds : ℚ
  length : ℕ
  channels : List (List ℚ)
  deriving Repr, DecidableEq

/-- A persisted metadata record (`#audioBufferToMetadata` output). -/
structure Metadata where
  name : String
  channels : ℕ
  rate : ℕ
  duration : ℚ
  chunks : ℕ
  deriving Repr, DecidableEq

/-- The two IndexedDB object stores of `db.js` (`chunks`, `metadata`).
`put` upserts by key; newest-first search models that. -/
structure DBState where
  chunks : List ChunkRecord
  metadata : List Metadata
  deriving Repr, DecidableEq

/-- `DB.getRecord 'metadata' name` (key path `name`). -/
def findMetadata (db : DBState) (name : String) : Option Metadata :=
  db.metadata.find? (fun m => m.name == name)

/-- `DB.getRecord 'chunks' id` with id `(name, seconds)`. -/
def findChunk (db : DBState) (name : String) (seconds : ℚ) : Option ChunkRecord :=
  db.chunks.find? (fun c => c.name == name && c.seconds == seconds)

/-- The chunk start offsets (in samples) visited by the save loop
`for (offset = 0; offset < samples; offset += chunk)`. -/
def chunkOffsets (chunk samples : ℕ) (offset : ℕ) : List ℕ :=
  if h : 0 < chunk ∧ offset < samples then
    offset :: chunkOffsets chunk samples (offset + chunk)
  else []
termination_by samples - offset
decreasing_by
  exact Nat.sub_lt_sub_left h.2 (Nat.lt_add_of_pos_right h.1)

/-- One chunk record of the save loop body, at sample offset `offset`:
`length = min(chunk, samples - offset)`, `seconds = offset / rate`,
channel data `new Float32Array(data.buffer, offset*4, length)`. -/
def mkRecord (D : ℕ) (name : String) (ab : AudioBuffer) (offset : ℕ) :
    ChunkRecord :=
  let chunk := ab.rate * D
  let len := min chunk (ab.length - offset)
  { name := name
    rate := ab.rate
    seconds := (offset : ℚ) / (ab.rate : ℚ)
    length := len
    channels := ab.data.map (fun d => (d.drop offset).take len) }

/-- `#audioBufferToRecords(name, ab)`: slice every channel into strides of
`chunk = rate * D` samples.  (`samples = ab.duration * rate` is exactly
`ab.length` in this model.) -/
def audioBufferToRecords (D : ℕ) (name : String) (ab : AudioBuffer) :
    List ChunkRecord :=
  (chunkOffsets (ab.rate * D) ab.length 0).map (mkRecord D name ab)

/-- `#audioBufferToMetadata(name, ab)`:
`chunks = Math.ceil(duration / D)`. -/
def audioBufferToMetadata (D : ℕ) (name : String) (ab : AudioBuffer) :
    Metadata :=
  { name := name
    channels := ab.data.length
    rate := ab.rate
    duration := ab.duration
    chunks := (⌈ab.duration / (D : ℚ)⌉).toNat }

/-- `DB.saveRecords('chunks', records)` — upsert all chunk records. -/
def saveChunks (db : DBState) (records : List ChunkRecord) : DBState :=
  { db with chunks := records ++ db.chunks }

/-- `DB.saveRecords('metadata', [record])` — upsert one metadata record. -/
def saveMetadata (db : DBState) (record : Metadata) : DBState :=
  { db with metadata := record :: db.metadata }

/-- The database states reached during `saveAudioBuffer`:
before any write, after `await #saveChunks`, after `await #saveMetadata`.
Chunks are written and awaited strictly before the metadata record. -/
def saveAudioBufferStates (db : DBState) (D : ℕ) (name : String)
    (ab : AudioBuffer) : List DBState :=
  let db₁ := saveChunks db (audioBufferToRecords D name ab)
  let db₂ := saveMetadata db₁ (audioBufferToMetadata D name ab)
  [db, db₁, db₂]

/-- `AudioStore.saveAudioBuffer(name, ab)`: write chunks, then metadata;
resolves with the metadata record. -/
def saveAudioBuffer (db : DBState) (D : ℕ) (name : String)
    (ab : AudioBuffer) : Metadata × DBState :=
  (audioBufferToMetadata D name ab,
    saveMetadata (saveChunks db (audioBufferToRecords D name ab))
      (audioBufferToMetadata D name ab))

/-- Failure modes of `getAudioBuffer` / `#getChunk` (all are plain
rejections in the JS; the spec's taxonomy names them). -/
inductive Err where
  /-- missing metadata record: the JS rejects with the `TypeError` raised
  by reading `metadata.duration` of `undefined` (spec: `NotFoundError`). -/
  | notFound : Err
  /-- `` `${end} is beyond track duration` `` (spec: `OutOfRangeError`). -/
  | outOfRange : Err
  /-- `` `${seconds} is not divisible by ${duration}` `` in `#getChunk`
  (spec: `MisalignedChunkError`). -/
  | misaligned (seconds : ℚ) : Err
  /-- missing chunk record: the JS rejects with the `TypeError` raised in
  `#parseChunk` reading `chunk.channels` of `undefined`. -/
  | chunkMissing (seconds : ℚ) : Err
  /-- `ac.createBuffer` throws `NotSupportedError` on a zero-length
  buffer, so a zero-sample window rejects inside `#mergeChunks`. -/
  | notSupported : Err
  deriving Repr, DecidableEq

/-- `AudioStore.#getChunk(name, seconds)`: reject unless `seconds` is a
multiple of the fixed chunk duration `D`, then fetch by id. -/
def getChunk (db : DBState) (D : ℕ) (name : String) (seconds : ℚ) :
    Except Err ChunkRecord :=
  if jsRem seconds (D : ℚ) ≠ 0 then .error (.misaligned seconds)
  else
    match findChunk db name seconds with
    | none => .error (.chunkMissing seconds)
    | some c => .ok c

/-- `Promise.all` over the `#getChunk` fetches: all records, or the first
rejection. -/
def fetchChunks (db : DBState) (D : ℕ) (name : String) :
    List ℚ → Except Err (List ChunkRecord)
  | [] => .ok []
  | s :: rest =>
    match getChunk db D name s with
    | .error e => .error e
    | .ok c =>
      match fetchChunks db D name rest with
      | .error e => .error e
      | .ok cs => .ok (c :: cs)

/-- The chunk start-seconds requested by `getAudioBuffer`'s while loop:
`sec` starts at the aligned start and steps by `D` while
`sec - localOffset < alignedStart + duration`.  (The store's chunk
duration is positive — 5 by default — which the guard records so that
the loop terminates.) -/
def chunkStarts (D : ℕ) (localOffset limit : ℚ) (sec : ℚ) : List ℚ :=
  if h : 0 < D ∧ sec - localOffset < limit then
    sec :: chunkStarts D localOffset limit (sec + D)
  else []
termination_by (⌈(limit + localOffset - sec) / (D : ℚ)⌉).toNat
decreasing_by
  have hD : (0 : ℚ) < (D : ℚ) := by exact_mod_cast h.1
  have hx : 0 < limit + localOffset - sec := by linarith [h.2]
  have hstep : (limit + localOffset - (sec + (D : ℚ))) / (D : ℚ)
      = (limit + localOffset - sec) / (D : ℚ) - 1 := by
    field_simp
    ring
  have hceil : ⌈(limit + localOffset - (sec + (D : ℚ))) / (D : ℚ)⌉
      = ⌈(limit + localOffset - sec) / (D : ℚ)⌉ - 1 := by
    rw [hstep]
    exact_mod_cast Int.ceil_sub_int ((limit + localOffset - sec) / (D : ℚ)) 1
  have hpos : 0 < ⌈(limit + localOffset - sec) / (D : ℚ)⌉ := by
    apply Int.ceil_pos.mpr
    positivity
  rw [hceil]
  omega

/-- The chunk start-seconds `getAudioBuffer(name, offset, duration)`
requests: `alignedStart = floor(offset / D) * D`, then stepping by `D`. -/
def requestedChunkStarts (D : ℕ) (offset duration : ℚ) : List ℚ :=
  let seconds : ℚ := (⌊offset / (D : ℚ)⌋ : ℚ) * (D : ℚ)
  chunkStarts D (offset - seconds) (seconds + duration) seconds

/-- `AudioStore.#mergeChunks(chunks, metadata, start, end)`: concatenate
the fetched chunks' per-channel data, take `subarray(start, end)` of each
(clamped, as in JS), and copy into a fresh buffer of
`samples = end - start` frames (zero-filled beyond the copied slice).
The source allocates `Float32Array` of the summed record lengths and
`set`s each chunk at the running index; for records whose channel data
length equals their recorded `length` — true of every record this store
writes — that is exactly concatenation. -/
def mergeChunks (chunks : List ChunkRecord) (metadata : Metadata)
    (start fin : ℕ) : Except Err AudioBuffer :=
  let samples := fin - start
  let merged := (List.range metadata.channels).map
    (fun j => (chunks.map (fun c => c.channels.getD j [])).flatten)
  let channels := merged.map (fun l => (l.drop start).take (fin - start))
  -- `ac.createBuffer(channels.length, samples, rate)` throws
  -- `NotSupportedError` for `samples = 0` (zero-length buffers cannot be
  -- constructed), and the rejection propagates out of `getAudioBuffer`.
  if samples = 0 then .error .notSupported
  else
    .ok { rate := metadata.rate
          data := channels.map (fun l =>
            l ++ List.replicate (samples - l.length) (0 : ℚ)) }

/-- `AudioStore.getAudioBuffer(name, offset, duration)`. -/
def getAudioBuffer (db : DBState) (D : ℕ) (name : String)
    (offset duration : ℚ) : Except Err AudioBuffer :=
  match findMetadata db name with
  | none => .error .notFound
  | some metadata =>
    if offset + duration > metadata.duration then .error .outOfRange
    else
      let rate := metadata.rate
      let seconds : ℚ := (⌊offset / (D : ℚ)⌋ : ℚ) * (D : ℚ)
      let samples : ℤ := ⌈duration * (rate : ℚ)⌉
      let localOffset := offset - seconds
      let first : ℤ := ⌊localOffset * (rate : ℚ)⌋
      let last : ℤ := first + samples
      match fetchChunks db D name (requestedChunkStarts D offset duration) with
      | .error e => .error e
      | .ok chunks => mergeChunks chunks metadata first.toNat last.toNat

/-! ## Streamer (`src/unnamed/part_001`)

The playback channel.  `ac.currentTime` is passed explicitly as `now`.
Output chains (`this.active`, a fresh `GainNode` after every effective
`stop()`) are modelled by identity tokens drawn from a freshness
counter `nextId`.  `duration` is `undefined` until `load()`; the claims
considered here only concern loaded channels, where it is the asset
duration. -/

/-- JavaScript `null` coerced to a number (`null` counts as `0`). -/
def jsNum (o : Option ℚ) : ℚ := o.getD 0

/-- JavaScript `a || b` on a nullable number: `null` and `0` are falsy. -/
def jsOr (o : Option ℚ) (d : ℚ) : ℚ :=
  match o with
  | none => d
  | some x => if x = 0 then d else x

/-- `Streamer` instance state. -/
structure Streamer where
  ready : Bool
  stopped : Bool
  startTime : Option ℚ
  startOffset : Option ℚ
  duration : ℚ
  /-- identity of the current `this.active` output chain. -/
  active : ℕ
  /-- freshness supply for output-chain identities. -/
  nextId : ℕ
  garbageBuffer : Bool
  /-- `this.primed`: the offset it was primed for and the primed source
  buffer's duration. -/
  primed : Option (ℚ × ℚ)
  /-- `this.ending`: a final source with an `onended → stop()` handler. -/
  ending : Bool
  /-- `this.fetchtimer`: a pending `next(when, offset, output)` call. -/
  fetchtimer : Option (ℚ × ℚ × ℕ)
  logtimer : Bool
  deriving Repr, DecidableEq

/-- Observable scheduling actions of a channel. -/
inductive Eff where
  /-- `store.getAudioBuffer(name, offset, chunkDuration)` issued from
  `next(when, offset, output)`. -/
  | fetchIssued (wh offset chunkDuration : ℚ) (output : ℕ)
  /-- `src.connect(output); src.start(when)`. -/
  | scheduled (wh : ℚ) (output : ℕ)
  /-- the throwaway `garbageBuffer` source started. -/
  | garbagePlayed
  deriving Repr, DecidableEq

/-- Errors thrown synchronously by `Streamer.stream`. -/
inductive StreamerErr where
  | notLoaded
  | alreadyPlaying
  deriving Repr, DecidableEq

/-- The `Streamer` constructor state (after `load()` it additionally has
`ready := true` and a duration). -/
def Streamer.init : Streamer :=
  { ready := false
    stopped := true
    startTime := none
    startOffset := none
    duration := 0
    active := 0
    nextId := 1
    garbageBuffer := true
    primed := none
    ending := false
    fetchtimer := none
    logtimer := false }

/-- A cache-hit `load()`: `Object.assign(this, { duration, ready: true })`. -/
def Streamer.loadHit (s : Streamer) (duration : ℚ) : Streamer :=
  { s with duration := duration, ready := true }

/-- `Streamer.stop()`: no-op when already stopped or not loaded;
otherwise detach the output chain and create a fresh one, fold the
elapsed time into the cursor (wrapping to `0` at or past `duration`),
clear the start clock time and cancel pending timers. -/
def Streamer.stop (s : Streamer) (now : ℚ) : Streamer :=
  if s.stopped || !s.ready then s
  else
    let elapsed := now - jsNum s.startTime
    let so := jsNum s.startOffset + elapsed
    { s with
      stopped := true
      active := s.nextId
      nextId := s.nextId + 1
      startTime := none
      startOffset := some (if so ≥ s.duration then 0 else so)
      fetchtimer := none
      logtimer := false }

/-- The `play(src, when, offset, output)` closure inside `stream`:
schedule the source at `when` on `output`, then either mark the channel
`Ending` (final segment) or arm the look-ahead fetch timer. -/
def Streamer.play (s : Streamer) (srcDur wh offset : ℚ) (output : ℕ) :
    Streamer × List Eff :=
  let s := { s with logtimer := true }
  let effs := [Eff.scheduled wh output]
  let wh' := wh + srcDur
  let offset' := offset + srcDur
  if offset' ≥ s.duration then
    ({ s with ending := true }, effs)
  else
    ({ s with fetchtimer := some (wh', offset', output) }, effs)

/-- The resolution callback of the `store.getAudioBuffer` fetch issued by
`next(when, offset, output)`: discard the result when the channel was
stopped or the captured `output` chain is no longer `this.active`;
otherwise fix `when`/`startTime` and `play` the fetched record (whose
buffer duration is `rd`). -/
def Streamer.resolve (s : Streamer) (now wh offset rd : ℚ) (output : ℕ) :
    Streamer × List Eff :=
  if s.stopped ∨ output ≠ s.active then (s, [])
  else
    let wh := if wh = 0 then now else wh
    let s := if s.startTime = none then { s with startTime := some wh } else s
    s.play rd wh offset output

/-- `typeof offset !== 'number'` default in `stream`/`prime`:
`this.startOffset !== null ? this.startOffset : 0`. -/
def Streamer.resolveOffset (s : Streamer) (offsetArg : Option ℚ) : ℚ :=
  match offsetArg with
  | some x => x
  | none => match s.startOffset with
    | some y => y
    | none => 0

/-- `Streamer.stream(offset)`: begin playback at `offset` (defaulting to
the stored cursor).  Consumes a matching primed segment, otherwise
issues a fresh fetch via `next(0, offset, this.active)`. -/
def Streamer.stream (s : Streamer) (now : ℚ) (offsetArg : Option ℚ) :
    Except StreamerErr (Streamer × List Eff) :=
  let offset := s.resolveOffset offsetArg
  if !s.ready then .error .notLoaded
  else if s.stopped = false then .error .alreadyPlaying
  else
    let s₀ := if s.ending then { s with ending := false } else s
    if offset ≥ s₀.duration then .ok (s₀.stop now, [])
    else
      let effs := if s₀.garbageBuffer then [Eff.garbagePlayed] else []
      let s₁ := if s₀.garbageBuffer then { s₀ with garbageBuffer := false } else s₀
      -- `this.stopped = false; this.startOffset = offset;
      --  const primed = this.primed; delete this.primed;`
      let s₂ := { s₁ with stopped := false, startOffset := some offset,
                          primed := none }
      match s₀.primed with
      | some (poff, pdur) =>
        if poff = offset then
          let pr := s₂.play pdur now offset s₂.active
          .ok (pr.1, effs ++ pr.2)
        else
          .ok (s₂, effs ++ [.fetchIssued 0 offset (min 5 (s₂.duration - offset)) s₂.active])
      | none =>
        .ok (s₂, effs ++ [.fetchIssued 0 offset (min 5 (s₂.duration - offset)) s₂.active])

/-- `Streamer.seek(offset)`: while playing, `stop()` then
`stream(offset)`; while stopped, only overwrite the stored cursor. -/
def Streamer.seek (s : Streamer) (now offset : ℚ) :
    Except StreamerErr (Streamer × List Eff) :=
  if s.stopped = false then
    (s.stop now).stream now (some offset)
  else
    .ok ({ s with startOffset := some offset }, [])

/-- `Streamer.currentTime()`: the stored cursor when stopped (returned
raw — `null` if never set), else
`(startOffset || 0) + (now - (startTime || now))`. -/
def Streamer.currentTime (s : Streamer) (now : ℚ) : Option ℚ :=
  if s.stopped then s.startOffset
  else
    let start := jsOr s.startTime now
    let offset := jsOr s.startOffset 0
    some (offset + (now - start))

/-- The `this.fetchtimer` timeout firing:
`next(when, offset, output)` issues the look-ahead fetch. -/
def Streamer.fetchFire (s : Streamer) : Streamer × List Eff :=
  match s.fetchtimer with
  | none => (s, [])
  | some (wh, o, output) =>
    ({ s with fetchtimer := none },
      [.fetchIssued wh o (min 5 (s.duration - o)) output])

/-- Channel events that can interleave between a fetch's issuance and its
resolution. -/
inductive Op where
  | stop (now : ℚ)
  | stream (now : ℚ) (offset : Option ℚ)
  | seek (now offset : ℚ)
  /-- resolution of some fetch whose captured chain was `output`. -/
  | resolve (now wh offset rd : ℚ) (output : ℕ)
  | fetchFire
  /-- the `Ending` source's natural end (`onended → stop()`; a no-op
  handler once `stream` has cleared `this.ending`). -/
  | endedFire (now : ℚ)
  /-- successful resolution of a `prime(offset)` fetch. -/
  | primeResolve (offset srcDur : ℚ)
  deriving Repr, DecidableEq

/-- State transition of one event (effects discarded; a `stream`/`seek`
that throws leaves the state unchanged). -/
def Streamer.step (s : Streamer) : Op → Streamer
  | .stop now => s.stop now
  | .stream now off =>
    match s.stream now off with
    | .ok (s', _) => s'
    | .error _ => s
  | .seek now x =>
    match s.seek now x with
    | .ok (s', _) => s'
    | .error _ => s
  | .resolve now wh o rd e => (s.resolve now wh o rd e).1
  | .fetchFire => s.fetchFire.1
  | .endedFire now => if s.ending then s.stop now else s
  | .primeResolve o d => { s with primed := some (o, d) }

/-- Run a sequence of channel events. -/
def Streamer.run (s : Streamer) (ops : List Op) : Streamer :=
  ops.foldl Streamer.step s

/-! ## StreamCoordinator (`src/lib/streamcoordinator.js`) -/

/-- `StreamCoordinator` group state (members as identity tokens). -/
structure Coordinator where
  startTime : Option ℚ
  startOffset : Option ℚ
  stopped : Bool
  duration : ℚ
  members : List ℕ
  deriving Repr, DecidableEq

/-- Observable actions of the coordinator on its members. -/
inductive CoordEff where
  | primeIssued (member : ℕ) (offset : ℚ)
  | memberStream (member : ℕ) (offset : ℚ)
  deriving Repr, DecidableEq

/-- Whether a coordinator action starts a member's playback. -/
def CoordEff.isMemberStream : CoordEff → Bool
  | .memberStream _ _ => true
  | .primeIssued _ _ => false

/-- `typeof offset !== 'number'` default:
`this.startOffset !== null ? this.startOffset : 0`. -/
def coordResolveOffset (c : Coordinator) (offsetArg : Option ℚ) : ℚ :=
  match offsetArg with
  | some x => x
  | none => match c.startOffset with
    | some y => y
    | none => 0

/-- The synchronous part of `StreamCoordinator.stream(offset)`: issue
`prime(offset)` on every member, then immediately (not gated on the
barrier) mark the group running and store the offset. -/
def coordStreamSync (c : Coordinator) (offsetArg : Option ℚ) :
    Coordinator × List CoordEff :=
  let offset := coordResolveOffset c offsetArg
  ({ c with stopped := false, startOffset := some offset },
    c.members.map (fun m => .primeIssued m offset))

/-- The `Promise.all(primes).then(...)` barrier callback of
`StreamCoordinator.stream`: runs only once every member's prime has
completed; fixes one shared start clock time (reused when already set)
and calls `stream(offset)` on every member. -/
def coordStreamBarrier (c : Coordinator) (offset now : ℚ) :
    Coordinator × List CoordEff :=
  let c' := if c.startTime = none then { c with startTime := some now } else c
  (c', c.members.map (fun m => .memberStream m offset))

/-! ## Concrete example states used by witnesses and counterexamples -/

/-- A loaded, playing channel near the end of a 4-second asset. -/
def playingEx : Streamer :=
  { ready := true
    stopped := false
    startTime := some 1
    startOffset := some 2
    duration := 4
    active := 0
    nextId := 1
    garbageBuffer := false
    primed := none
    ending := false
    fetchtimer := none
    logtimer := false }

/-- A loaded, playing channel used for the stale-fetch trace. -/
def playingC3 : Streamer :=
  { ready := true
    stopped := false
    startTime := some 0
    startOffset := some 0
    duration := 10
    active := 0
    nextId := 1
    garbageBuffer := false
    primed := none
    ending := false
    fetchtimer := none
    logtimer := false }

/-- A database holding one metadata record for track `t` (duration 1s). -/
def dbExC5 : DBState :=
  { chunks := []
    metadata := [{ name := "t", channels := 1, rate := 1, duration := 1, chunks := 1 }] }

/-- A three-member coordinator group. -/
def coordEx : Coordinator :=
  { startTime := none, startOffset := none, stopped := true, duration := 10,
    members := [0, 1, 2] }

/-! ## C5 — error behavior of `getAudioBuffer` -/

/-- **C5.** `getAudioBuffer(name, offset, duration)` rejects with the
not-found error whenever no metadata record exists for `name` (in the JS,
the `TypeError` from reading `metadata.duration` of `undefined`), and
rejects with the out-of-range error whenever metadata exists and
`offset + duration > metadata.duration`; in both cases it never resolves
with a window. -/
theorem getAudioBuffer_errors (db : DBState) (D : ℕ) (name : String)
    (offset duration : ℚ) :
    (findMetadata db name = none →
      getAudioBuffer db D name offset duration = Except.error Err.notFound)
    ∧ (∀ md, findMetadata db name = some md →
        offset + duration > md.duration →
        getAudioBuffer db D name offset duration = Except.error Err.outOfRange) := by
  constructor
  · intro h
    simp [getAudioBuffer, h]
  · intro md h hgt
    simp [getAudioBuffer, h, hgt]

/-- Witness for C5: both error branches at concrete inputs. -/
theorem getAudioBuffer_errors_witness :
    getAudioBuffer ⟨[], []⟩ 5 "t" 0 1 = Except.error Err.notFound
    ∧ getAudioBuffer dbExC5 5 "t" 0 2 = Except.error Err.outOfRange :=
  ⟨(getAudioBuffer_errors ⟨[], []⟩ 5 "t" 0 1).1 rfl,
   (getAudioBuffer_errors dbExC5 5 "t" 0 2).2
     { name := "t", channels := 1, rate := 1, duration := 1, chunks := 1 }
     (by decide) (by norm_num)⟩

/-! ## C9 — seek on a stopped channel -/

/-- **C9.** On a stopped channel, `seek(x)` only overwrites the stored
cursor offset with `x` and changes no other channel state: the result is
the same record with only `startOffset` replaced, the effect list is
empty (no fetch issued, no output scheduled), and — since `stopped` is
among the unchanged fields — the channel remains stopped. -/
theorem streamer_seek_stopped (s : Streamer) (now x : ℚ)
    (h : s.stopped = true) :
    s.seek now x = Except.ok ({ s with startOffset := some x }, []) := by
  unfold Streamer.seek
  rw [h]
  simp

/-- Witness for C9 at a concrete stopped channel. -/
theorem streamer_seek_stopped_witness :
    (Streamer.loadHit Streamer.init 10).seek 2 4 =
      Except.ok ({ Streamer.loadHit Streamer.init 10 with startOffset := some 4 }, []) :=
  streamer_seek_stopped (Streamer.loadHit Streamer.init 10) 2 4 rfl

/-! ## C4 — `Streamer.currentTime` (corrected) -/

/-- **C4 (counterexample).** The claim says that when
`storedOffset + (clockNow - startClockTime)` meets or exceeds the asset
duration, `Streamer.currentTime()` triggers `stop()` and reports `0`.
At a playing channel with `startOffset = 2`, `startTime = 1`,
`duration = 4` and clock `5`, the overrun value is `6 ≥ duration`, yet
the call returns `6`, not `0` (and `currentTime` is a pure read of the
state — the auto-stop-and-report-0 behavior lives in
`StreamCoordinator.currentTime`, not in `Streamer.currentTime`). -/
theorem streamer_currentTime_no_autostop :
    playingEx.currentTime 5 = some 6
    ∧ playingEx.duration ≤ 6
    ∧ some (6 : ℚ) ≠ some (0 : ℚ) := by
  refine ⟨?_, by norm_num [playingEx], by norm_num⟩
  norm_num [playingEx, Streamer.currentTime, jsOr]

/-- **C4 (amended).** `Streamer.currentTime()` on a stopped channel
returns the stored cursor offset (raw — `null` if never set).  On a
playing channel with an established non-zero start clock time it returns
`storedOffset + (clockNow - startClockTime)`; on a playing channel whose
start clock time is unset or exactly `0` (the JS
`this.startTime || this.ac.currentTime` treats `0` as falsy) it
substitutes `clockNow` for the start time and so returns the stored
offset unchanged.  In no case does it trigger `stop()` or report `0`
when the position meets or exceeds the asset duration — that
self-terminating behavior exists only in
`StreamCoordinator.currentTime`. -/
theorem streamer_currentTime_spec :
    (∀ (s : Streamer) (now : ℚ), s.stopped = true →
      s.currentTime now = s.startOffset)
    ∧ (∀ (s : Streamer) (now t : ℚ), s.stopped = false →
        s.startTime = some t → t ≠ 0 →
        s.currentTime now = some (s.startOffset.getD 0 + (now - t)))
    ∧ (∀ (s : Streamer) (now : ℚ), s.stopped = false →
        (s.startTime = none ∨ s.startTime = some 0) →
        s.currentTime now = some (s.startOffset.getD 0)) := by
  have hoff : ∀ s : Streamer, jsOr s.startOffset 0 = s.startOffset.getD 0 := by
    intro s
    cases h' : s.startOffset with
    | none => simp [jsOr]
    | some x =>
      by_cases hx : x = 0 <;> simp [jsOr, hx]
  refine ⟨?_, ?_, ?_⟩
  · intro s now h
    simp [Streamer.currentTime, h]
  · intro s now t h ht hne
    simp only [Streamer.currentTime, h, Bool.false_eq_true, if_false, ht]
    have h1 : jsOr (some t) now = t := by simp [jsOr, hne]
    rw [h1, hoff s]
  · intro s now h ht
    simp only [Streamer.currentTime, h, Bool.false_eq_true, if_false]
    have h1 : jsOr s.startTime now = now := by
      rcases ht with ht | ht <;> simp [jsOr, ht]
    rw [h1, hoff s, sub_self, add_zero]

/-- Witness for C4's amended statement: a stopped channel, a playing
channel with a non-zero start time, and a playing channel whose start
time is the falsy clock value `0`. -/
theorem streamer_currentTime_spec_witness :
    ({ playingEx with stopped := true } : Streamer).currentTime 5 = some 2
    ∧ playingEx.currentTime 5 = some 6
    ∧ ({ playingEx with startTime := some 0 } : Streamer).currentTime 5 = some 2 := by
  refine ⟨streamer_currentTime_spec.1 _ 5 rfl, ?_, ?_⟩
  · have h := streamer_currentTime_spec.2.1 playingEx 5 1 rfl rfl (by norm_num)
    rw [h]
    norm_num [playingEx]
  · have h := streamer_currentTime_spec.2.2
      ({ playingEx with startTime := some 0 } : Streamer) 5 rfl (Or.inr rfl)
    rw [h]
    norm_num [playingEx]

/-! ## C10 — `currentTime` on a never-streamed channel (code bug) -/

/-- **C10 (code bug).** On a loaded channel on which `stream()` and
`seek()` have never been called, `currentTime()` returns the raw
`startOffset`, which the constructor initializes to `null` — not a
number, contradicting the claim and the method's own JSDoc
(`@return {Number}`). -/
theorem streamer_currentTime_initial_null :
    (Streamer.init.loadHit 3).currentTime 7 = none := by
  decide

/-! ## C8 — `StreamCoordinator.stream` barrier ordering -/

/-- **C8.** `StreamCoordinator.stream(offset?)` defaults the offset to the
group's stored offset, synchronously (not gated on the barrier) marks the
group running and stores that offset while leaving the shared start time
untouched, and issues `prime` at that same offset to every member — and
to nobody a `stream` call.  Only the all-primes barrier callback fixes
the single shared start clock time (reusing an already-set one) and calls
`stream` with the same offset on every member; hence no member begins
playback before all members' primes have completed. -/
theorem streamCoordinator_stream_barrier (c c₂ : Coordinator)
    (offsetArg : Option ℚ) (now : ℚ) :
    (coordStreamSync c offsetArg).1.stopped = false
    ∧ (coordStreamSync c offsetArg).1.startOffset =
        some (coordResolveOffset c offsetArg)
    ∧ (coordStreamSync c offsetArg).1.startTime = c.startTime
    ∧ (coordStreamSync c offsetArg).2 =
        c.members.map (fun m => CoordEff.primeIssued m (coordResolveOffset c offsetArg))
    ∧ (∀ e ∈ (coordStreamSync c offsetArg).2, e.isMemberStream = false)
    ∧ (coordStreamBarrier c₂ (coordResolveOffset c offsetArg) now).1.startTime =
        some (c₂.startTime.getD now)
    ∧ (coordStreamBarrier c₂ (coordResolveOffset c offsetArg) now).2 =
        c₂.members.map (fun m => CoordEff.memberStream m (coordResolveOffset c offsetArg)) := by
  refine ⟨rfl, rfl, rfl, rfl, ?_, ?_, rfl⟩
  · intro e he
    simp only [coordStreamSync, List.mem_map] at he
    obtain ⟨m, _, rfl⟩ := he
    rfl
  · cases h : c₂.startTime with
    | none => simp [coordStreamBarrier, h]
    | some t => simp [coordStreamBarrier, h]

/-- Witness for C8 at a concrete three-member group. -/
theorem streamCoordinator_stream_barrier_witness :
    (coordStreamSync coordEx (some 3)).1.stopped = false
    ∧ (coordStreamSync coordEx (some 3)).1.startOffset = some 3
    ∧ (CoordEff.primeIssued 1 3).isMemberStream = false
    ∧ (coordStreamBarrier coordEx 3 7).1.startTime = some 7 := by
  have h := streamCoordinator_stream_barrier coordEx coordEx (some 3) 7
  refine ⟨h.1, h.2.1, h.2.2.2.2.1 (CoordEff.primeIssued 1 3) ?_, ?_⟩
  · rw [h.2.2.2.1]
    decide
  · have h6 := h.2.2.2.2.2.1
    simpa using h6

/-! ## C3 — stale-fetch immunity -/

/-- `stop()` is a no-op on an already-stopped channel. -/
theorem Streamer.stop_noop (s : Streamer) (now : ℚ) (h : s.stopped = true) :
    s.stop now = s := by
  simp [Streamer.stop, h]

/-- `stop()` either leaves the state unchanged or retires the active
output chain for a fresh identity and stops the channel. -/
theorem Streamer.stop_cases (s : Streamer) (now : ℚ) :
    s.stop now = s
    ∨ ((s.stop now).active = s.nextId ∧ (s.stop now).nextId = s.nextId + 1
        ∧ (s.stop now).stopped = true ∧ (s.stop now).ready = s.ready) := by
  unfold Streamer.stop
  split
  · exact Or.inl rfl
  · exact Or.inr ⟨rfl, rfl, rfl, rfl⟩

/-- An effective `stop()` (playing, loaded channel) retires the chain. -/
theorem Streamer.stop_effective (s : Streamer) (now : ℚ)
    (h1 : s.stopped = false) (h2 : s.ready = true) :
    (s.stop now).active = s.nextId ∧ (s.stop now).nextId = s.nextId + 1
      ∧ (s.stop now).stopped = true ∧ (s.stop now).ready = true := by
  unfold Streamer.stop
  rw [h1, h2]
  exact ⟨rfl, rfl, rfl, rfl⟩

/-- `play` never touches the output chain, the freshness supply, the
stopped flag or readiness. -/
theorem Streamer.play_frame (s : Streamer) (d wh o : ℚ) (out : ℕ) :
    (s.play d wh o out).1.active = s.active
    ∧ (s.play d wh o out).1.nextId = s.nextId
    ∧ (s.play d wh o out).1.stopped = s.stopped
    ∧ (s.play d wh o out).1.ready = s.ready := by
  simp only [Streamer.play]
  refine ⟨?_, ?_, ?_, ?_⟩ <;> split <;> rfl

/-- `play` keeps `active` unchanged. -/
theorem Streamer.play_active (s : Streamer) (d wh o : ℚ) (out : ℕ) :
    (s.play d wh o out).1.active = s.active :=
  (Streamer.play_frame s d wh o out).1

/-- `play` keeps `nextId` unchanged. -/
theorem Streamer.play_nextId (s : Streamer) (d wh o : ℚ) (out : ℕ) :
    (s.play d wh o out).1.nextId = s.nextId :=
  (Streamer.play_frame s d wh o out).2.1

/-- `play` keeps `ready` unchanged. -/
theorem Streamer.play_ready (s : Streamer) (d wh o : ℚ) (out : ℕ) :
    (s.play d wh o out).1.ready = s.ready :=
  (Streamer.play_frame s d wh o out).2.2.2

/-- The fetch-resolution callback never touches the output chain, the
freshness supply, the stopped flag or readiness. -/
theorem Streamer.resolve_frame (s : Streamer) (now wh o rd : ℚ) (out : ℕ) :
    (s.resolve now wh o rd out).1.active = s.active
    ∧ (s.resolve now wh o rd out).1.nextId = s.nextId
    ∧ (s.resolve now wh o rd out).1.stopped = s.stopped
    ∧ (s.resolve now wh o rd out).1.ready = s.ready := by
  unfold Streamer.resolve
  by_cases hg : s.stopped = true ∨ out ≠ s.active
  · rw [if_pos hg]
    exact ⟨rfl, rfl, rfl, rfl⟩
  · rw [if_neg hg]
    by_cases hw : wh = 0 <;> by_cases hst : s.startTime = none <;>
      simp only [hw, hst, if_true, if_false, ite_true, ite_false] <;>
      exact ⟨Streamer.play_active .., Streamer.play_nextId ..,
        (Streamer.play_frame ..).2.2.1, Streamer.play_ready ..⟩

/-- The fetch timer firing never touches chain, supply, stopped flag or
readiness. -/
theorem Streamer.fetchFire_frame (s : Streamer) :
    s.fetchFire.1.active = s.active
    ∧ s.fetchFire.1.nextId = s.nextId
    ∧ s.fetchFire.1.stopped = s.stopped
    ∧ s.fetchFire.1.ready = s.ready := by
  unfold Streamer.fetchFire
  cases s.fetchtimer with
  | none => exact ⟨rfl, rfl, rfl, rfl⟩
  | some p => exact ⟨rfl, rfl, rfl, rfl⟩

/-- A successful `stream` call was made on a stopped channel and keeps
the output chain, the freshness supply and readiness unchanged. -/
theorem Streamer.stream_ok (s s' : Streamer) (now : ℚ) (off : Option ℚ)
    (effs : List Eff) (h : s.stream now off = Except.ok (s', effs)) :
    s'.active = s.active ∧ s'.nextId = s.nextId ∧ s'.ready = s.ready
      ∧ s.stopped = true := by
  by_cases hr : s.ready = true
  case neg =>
    have hr' : s.ready = false := by revert hr; cases s.ready <;> simp
    simp [Streamer.stream, hr'] at h
  by_cases hs : s.stopped = true
  case neg =>
    have hs' : s.stopped = false := by revert hs; cases s.stopped <;> simp
    simp [Streamer.stream, hr, hs'] at h
  simp only [Streamer.stream] at h
  rw [if_neg (show ¬((!s.ready) = true) by simp [hr])] at h
  rw [if_neg (show ¬(s.stopped = false) by simp [hs])] at h
  set s₀ : Streamer := if s.ending = true then { s with ending := false } else s
    with hs₀def
  have h₀ : s₀.active = s.active ∧ s₀.nextId = s.nextId ∧ s₀.ready = s.ready
      ∧ s₀.stopped = s.stopped := by
    rw [hs₀def]
    split
    · exact ⟨rfl, rfl, rfl, rfl⟩
    · exact ⟨rfl, rfl, rfl, rfl⟩
  by_cases hd : s.resolveOffset off ≥ s₀.duration
  · rw [if_pos hd, Streamer.stop_noop s₀ now (h₀.2.2.2.trans hs),
      Except.ok.injEq, Prod.mk.injEq] at h
    obtain ⟨h1, -⟩ := h
    subst h1
    exact ⟨h₀.1, h₀.2.1, h₀.2.2.1, hs⟩
  · rw [if_neg hd] at h
    by_cases hg : s₀.garbageBuffer = true
    all_goals
      simp only [hg, Bool.true_eq_false, Bool.false_eq_true, if_true, if_false,
        ite_true, ite_false] at h
    all_goals
      cases hp : s₀.primed with
      | none =>
        simp only [hp, Except.ok.injEq, Prod.mk.injEq] at h
        obtain ⟨h1, -⟩ := h
        subst h1
        exact ⟨h₀.1, h₀.2.1, h₀.2.2.1, hs⟩
      | some p =>
        obtain ⟨poff, pdur⟩ := p
        simp only [hp] at h
        by_cases hpo : poff = s.resolveOffset off
        · rw [if_pos hpo, Except.ok.injEq, Prod.mk.injEq] at h
          obtain ⟨h1, -⟩ := h
          subst h1
          exact ⟨(Streamer.play_active ..).trans h₀.1,
            (Streamer.play_nextId ..).trans h₀.2.1,
            (Streamer.play_ready ..).trans h₀.2.2.1, hs⟩
        · rw [if_neg hpo, Except.ok.injEq, Prod.mk.injEq] at h
          obtain ⟨h1, -⟩ := h
          subst h1
          exact ⟨h₀.1, h₀.2.1, h₀.2.2.1, hs⟩

/-- A successful `seek` either ran the stopped branch (pure cursor
mutation) or went through `stop(); stream(x)` and retired the chain. -/
theorem Streamer.seek_ok (s s' : Streamer) (now x : ℚ) (effs : List Eff)
    (h : s.seek now x = Except.ok (s', effs)) :
    (s.stopped = true ∧ s'.active = s.active ∧ s'.nextId = s.nextId
      ∧ s'.ready = s.ready)
    ∨ (s'.active = s.nextId ∧ s'.nextId = s.nextId + 1 ∧ s'.ready = s.ready) := by
  unfold Streamer.seek at h
  by_cases hs : s.stopped = true
  · rw [if_neg (by simp [hs])] at h
    rw [Except.ok.injEq, Prod.mk.injEq] at h
    obtain ⟨h1, -⟩ := h
    subst h1
    exact Or.inl ⟨hs, rfl, rfl, rfl⟩
  · have hs' : s.stopped = false := by revert hs; cases s.stopped <;> simp
    rw [if_pos hs'] at h
    obtain ⟨ha, hn, hrd, hstop⟩ := Streamer.stream_ok _ _ _ _ _ h
    rcases Streamer.stop_cases s now with heq | ⟨ha', hn', hst', hrd'⟩
    · rw [heq] at hstop
      rw [hstop] at hs'
      cases hs'
    · exact Or.inr ⟨ha.trans ha', hn.trans hn', hrd.trans hrd'⟩

/-- `step` on a `stream` event, unfolded. -/
theorem Streamer.step_stream (s : Streamer) (now : ℚ) (off : Option ℚ) :
    s.step (Op.stream now off) =
      match s.stream now off with
      | Except.ok (s', _) => s'
      | Except.error _ => s := rfl

/-- `step` on a `seek` event, unfolded. -/
theorem Streamer.step_seek (s : Streamer) (now x : ℚ) :
    s.step (Op.seek now x) =
      match s.seek now x with
      | Except.ok (s', _) => s'
      | Except.error _ => s := rfl

/-- The chain token `e` is retired: the channel no longer plays on it. -/
def chainDead (e : ℕ) (s : Streamer) : Prop :=
  e < s.nextId ∧ s.ready = true ∧ s.active ≠ e

/-- Invariant of a channel holding (or having held) chain token `e`:
`e` was drawn from the freshness supply, the channel is loaded, and if
`e` is still the active chain the channel is not stopped. -/
def chainLive (e : ℕ) (s : Streamer) : Prop :=
  e < s.nextId ∧ s.ready = true ∧ (s.active = e → s.stopped = false)

/-- Once dead, a chain token stays dead under every channel event. -/
theorem chainDead_step (e : ℕ) (s : Streamer) (op : Op)
    (h : chainDead e s) : chainDead e (s.step op) := by
  obtain ⟨hlt, hrd, hne⟩ := h
  cases op with
  | stop now =>
    show chainDead e (s.stop now)
    rcases Streamer.stop_cases s now with heq | ⟨ha, hn, -, hr⟩
    · rw [heq]; exact ⟨hlt, hrd, hne⟩
    · exact ⟨by omega, hr.trans hrd, by omega⟩
  | stream now off =>
    rw [Streamer.step_stream]
    cases hst : s.stream now off with
    | error err => exact ⟨hlt, hrd, hne⟩
    | ok p =>
      obtain ⟨s', effs⟩ := p
      show chainDead e s'
      obtain ⟨ha, hn, hr, -⟩ := Streamer.stream_ok s s' now off effs hst
      exact ⟨hn ▸ hlt, hr.trans hrd, ha ▸ hne⟩
  | seek now x =>
    rw [Streamer.step_seek]
    cases hst : s.seek now x with
    | error err => exact ⟨hlt, hrd, hne⟩
    | ok p =>
      obtain ⟨s', effs⟩ := p
      show chainDead e s'
      rcases Streamer.seek_ok s s' now x effs hst with
        ⟨-, ha, hn, hr⟩ | ⟨ha, hn, hr⟩
      · exact ⟨hn ▸ hlt, hr.trans hrd, ha ▸ hne⟩
      · exact ⟨by omega, hr.trans hrd, by omega⟩
  | resolve now wh o rd out =>
    obtain ⟨ha, hn, -, hr⟩ := Streamer.resolve_frame s now wh o rd out
    exact ⟨hn ▸ hlt, hr.trans hrd, ha ▸ hne⟩
  | fetchFire =>
    obtain ⟨ha, hn, -, hr⟩ := Streamer.fetchFire_frame s
    exact ⟨hn ▸ hlt, hr.trans hrd, ha ▸ hne⟩
  | endedFire now =>
    show chainDead e (if s.ending = true then s.stop now else s)
    split
    · rcases Streamer.stop_cases s now with heq | ⟨ha, hn, -, hr⟩
      · rw [heq]; exact ⟨hlt, hrd, hne⟩
      · exact ⟨by omega, hr.trans hrd, by omega⟩
    · exact ⟨hlt, hrd, hne⟩
  | primeResolve o d => exact ⟨hlt, hrd, hne⟩

/-- The chain invariant is preserved by every channel event. -/
theorem chainLive_step (e : ℕ) (s : Streamer) (op : Op)
    (h : chainLive e s) : chainLive e (s.step op) := by
  obtain ⟨hlt, hrd, himp⟩ := h
  cases op with
  | stop now =>
    show chainLive e (s.stop now)
    rcases Streamer.stop_cases s now with heq | ⟨ha, hn, -, hr⟩
    · rw [heq]; exact ⟨hlt, hrd, himp⟩
    · refine ⟨by omega, hr.trans hrd, fun hae => absurd (ha ▸ hae) (by omega)⟩
  | stream now off =>
    rw [Streamer.step_stream]
    cases hst : s.stream now off with
    | error err => exact ⟨hlt, hrd, himp⟩
    | ok p =>
      obtain ⟨s', effs⟩ := p
      show chainLive e s'
      obtain ⟨ha, hn, hr, hstop⟩ := Streamer.stream_ok s s' now off effs hst
      refine ⟨hn ▸ hlt, hr.trans hrd, fun hae => ?_⟩
      exact absurd (himp (ha ▸ hae)) (by rw [hstop]; simp)
  | seek now x =>
    rw [Streamer.step_seek]
    cases hst : s.seek now x with
    | error err => exact ⟨hlt, hrd, himp⟩
    | ok p =>
      obtain ⟨s', effs⟩ := p
      show chainLive e s'
      rcases Streamer.seek_ok s s' now x effs hst with
        ⟨hstop, ha, hn, hr⟩ | ⟨ha, hn, hr⟩
      · refine ⟨hn ▸ hlt, hr.trans hrd, fun hae => ?_⟩
        exact absurd (himp (ha ▸ hae)) (by rw [hstop]; simp)
      · refine ⟨by omega, hr.trans hrd, fun hae => absurd (ha ▸ hae) (by omega)⟩
  | resolve now wh o rd out =>
    obtain ⟨ha, hn, hstp, hr⟩ := Streamer.resolve_frame s now wh o rd out
    exact ⟨hn ▸ hlt, hr.trans hrd, fun hae => hstp.trans (himp (ha ▸ hae))⟩
  | fetchFire =>
    obtain ⟨ha, hn, hstp, hr⟩ := Streamer.fetchFire_frame s
    exact ⟨hn ▸ hlt, hr.trans hrd, fun hae => hstp.trans (himp (ha ▸ hae))⟩
  | endedFire now =>
    show chainLive e (if s.ending = true then s.stop now else s)
    split
    · rcases Streamer.stop_cases s now with heq | ⟨ha, hn, -, hr⟩
      · rw [heq]; exact ⟨hlt, hrd, himp⟩
      · refine ⟨by omega, hr.trans hrd, fun hae => absurd (ha ▸ hae) (by omega)⟩
    · exact ⟨hlt, hrd, himp⟩
  | primeResolve o d => exact ⟨hlt, hrd, himp⟩

/-- A `stop` event kills the chain token of a live channel. -/
theorem chainLive_stop_dead (e : ℕ) (s : Streamer) (now : ℚ)
    (h : chainLive e s) : chainDead e (s.step (Op.stop now)) := by
  obtain ⟨hlt, hrd, himp⟩ := h
  show chainDead e (s.stop now)
  by_cases hs : s.stopped = true
  · rw [Streamer.stop_noop s now hs]
    refine ⟨hlt, hrd, fun hae => ?_⟩
    rw [himp hae] at hs
    cases hs
  · have hs' : s.stopped = false := by revert hs; cases s.stopped <;> simp
    obtain ⟨ha, hn, -, hr⟩ := Streamer.stop_effective s now hs' hrd
    exact ⟨by omega, hr, by omega⟩

/-- Dead chains stay dead along any event trace. -/
theorem chainDead_run (e : ℕ) (s : Streamer) (ops : List Op)
    (h : chainDead e s) : chainDead e (s.run ops) := by
  induction ops generalizing s with
  | nil => exact h
  | cons op rest ih => exact ih (s.step op) (chainDead_step e s op h)

/-- Any trace containing a `stop` event kills a live chain token. -/
theorem run_dead (e : ℕ) (s : Streamer) (ops : List Op)
    (hL : chainLive e s) (hstop : ∃ n, Op.stop n ∈ ops) :
    chainDead e (s.run ops) := by
  induction ops generalizing s with
  | nil =>
    obtain ⟨n, hn⟩ := hstop
    cases hn
  | cons op rest ih =>
    obtain ⟨n, hn⟩ := hstop
    rcases List.mem_cons.mp hn with heq | hmem
    · subst heq
      exact chainDead_run e _ rest (chainLive_stop_dead e s n hL)
    · exact ih (s.step op) (chainLive_step e s op hL) ⟨n, hmem⟩

/-- **C3.** Stale-fetch immunity: consider a look-ahead fetch issued from
`stream`'s scheduling loop while the channel is playing, capturing the
then-active output chain `s₀.active`.  If `stop()` runs anywhere between
the issuing of that fetch and its resolution — with arbitrary further
channel events interleaved — the resolution callback returns without
creating or starting a source (no state change, no effects), because the
channel is stopped or the captured output chain no longer equals the
channel's current active chain. -/
theorem streamer_stale_fetch_discarded (s₀ : Streamer) (ops : List Op)
    (now wh offset rd : ℚ)
    (hready : s₀.ready = true) (hplaying : s₀.stopped = false)
    (hwf : s₀.active < s₀.nextId)
    (hstop : ∃ n, Op.stop n ∈ ops) :
    (s₀.run ops).resolve now wh offset rd s₀.active = (s₀.run ops, []) := by
  have hL : chainLive s₀.active s₀ := ⟨hwf, hready, fun _ => hplaying⟩
  have hD := run_dead s₀.active s₀ ops hL hstop
  unfold Streamer.resolve
  rw [if_pos (Or.inr (Ne.symm hD.2.2))]

/-- Witness for C3: a concrete playing channel, a trace consisting of one
`stop`, and a fetch resolution that is discarded. -/
theorem streamer_stale_fetch_discarded_witness :
    (playingC3.run [Op.stop 1]).resolve 2 0 0 5 playingC3.active
      = (playingC3.run [Op.stop 1], []) :=
  streamer_stale_fetch_discarded playingC3 [Op.stop 1] 2 0 0 5 rfl rfl
    (by decide) ⟨1, List.mem_singleton.mpr rfl⟩

/-! ## C6 — chunk requests are always aligned -/

/-- Every start the request loop visits is `s₀ + k·D` for some `k : ℕ`. -/
theorem chunkStarts_mem_shape (D : ℕ) (lo lim s₀ : ℚ) :
    ∀ sec ∈ chunkStarts D lo lim s₀, ∃ k : ℕ, sec = s₀ + k * D := by
  induction s₀ using chunkStarts.induct D lo lim with
  | case1 s₀ h ih =>
    intro sec hmem
    rw [chunkStarts, dif_pos h] at hmem
    rcases List.mem_cons.mp hmem with rfl | hmem
    · exact ⟨0, by push_cast; ring⟩
    · obtain ⟨k, hk⟩ := ih sec hmem
      exact ⟨k + 1, by rw [hk]; push_cast; ring⟩
  | case2 s₀ h =>
    intro sec hmem
    rw [chunkStarts, dif_neg h] at hmem
    cases hmem

/-- Every chunk start-second `getAudioBuffer` requests is a multiple of
the fixed chunk duration, in the sense of the `% !== 0` check in
`#getChunk`. -/
theorem requestedChunkStarts_aligned (D : ℕ) (offset duration : ℚ)
    (hD : 0 < D) :
    ∀ sec ∈ requestedChunkStarts D offset duration, jsRem sec (D : ℚ) = 0 := by
  intro sec hmem
  simp only [requestedChunkStarts] at hmem
  obtain ⟨k, hk⟩ := chunkStarts_mem_shape D _ _ _ sec hmem
  have hsec : sec = ((⌊offset / (D : ℚ)⌋ + k : ℤ) : ℚ) * (D : ℚ) := by
    rw [hk]; push_cast; ring
  rw [hsec]
  refine jsRem_int_mul _ _ ?_
  exact_mod_cast (Nat.cast_pos.mpr hD).ne'

/-- When every requested start is aligned, the `Promise.all` of
`#getChunk` fetches cannot fail with the misalignment error. -/
theorem fetchChunks_no_misaligned (db : DBState) (D : ℕ) (name : String) :
    ∀ l : List ℚ, (∀ s ∈ l, jsRem s (D : ℚ) = 0) →
      ∀ e, fetchChunks db D name l ≠ Except.error (Err.misaligned e) := by
  intro l
  induction l with
  | nil =>
    intro _ e h
    cases h
  | cons a l ih =>
    intro hl e h
    unfold fetchChunks getChunk at h
    rw [if_neg (not_not_intro (hl a (List.mem_cons_self a l)))] at h
    cases hf : findChunk db name a with
    | none =>
      simp only [hf] at h
      cases h
    | some c =>
      simp only [hf] at h
      cases hrest : fetchChunks db D name l with
      | error e' =>
        simp only [hrest] at h
        injection h with h'
        exact ih (fun s hs => hl s (List.mem_cons_of_mem a hs)) e
          (by rw [hrest, h'])
      | ok cs =>
        simp only [hrest] at h
        cases h

/-- **C6.** Every chunk start-second requested by
`getAudioBuffer(name, offset, duration)` — `alignedStart =
floor(offset / D) * D`, then stepping by `D` — is a multiple of the
fixed chunk duration `D`, so the `is not divisible by` error branch in
the private chunk accessor `#getChunk` is unreachable from
`getAudioBuffer`'s own computed offsets. -/
theorem getAudioBuffer_never_misaligned (db : DBState) (D : ℕ)
    (name : String) (offset duration : ℚ) (hD : 0 < D) :
    (∀ sec ∈ requestedChunkStarts D offset duration, jsRem sec (D : ℚ) = 0)
    ∧ ∀ e, getAudioBuffer db D name offset duration
        ≠ Except.error (Err.misaligned e) := by
  refine ⟨requestedChunkStarts_aligned D offset duration hD, ?_⟩
  intro e h
  unfold getAudioBuffer at h
  cases hm : findMetadata db name with
  | none =>
    simp only [hm] at h
    cases h
  | some md =>
    simp only [hm] at h
    by_cases hgt : offset + duration > md.duration
    · rw [if_pos hgt] at h
      cases h
    · rw [if_neg hgt] at h
      cases hf : fetchChunks db D name (requestedChunkStarts D offset duration) with
      | error e' =>
        simp only [hf] at h
        injection h with h'
        exact fetchChunks_no_misaligned db D name
          (requestedChunkStarts D offset duration)
          (requestedChunkStarts_aligned D offset duration hD) e
          (by rw [hf, h'])
      | ok chunks =>
        simp only [hf] at h
        simp only [mergeChunks] at h
        split at h
        · simp at h
        · cases h

/-- Witness for C6: the one aligned start requested by
`getAudioBuffer(t, 0, 4)` with `D = 5`, and the absence of the
misalignment rejection there. -/
theorem getAudioBuffer_never_misaligned_witness :
    jsRem 0 (5 : ℚ) = 0
    ∧ getAudioBuffer ⟨[], []⟩ 5 "t" 0 4
        ≠ Except.error (Err.misaligned 0) := by
  have h := getAudioBuffer_never_misaligned ⟨[], []⟩ 5 "t" 0 4 (by norm_num)
  refine ⟨h.1 0 ?_, h.2 0⟩
  rw [requestedChunkStarts]
  norm_num
  rw [chunkStarts]
  norm_num

/-! ## Save-side closed forms (toward C1, C2, C7) -/

/-- The number of chunk records the save loop writes for `T` samples in
strides of `c`: `⌈T / c⌉` as naturals. -/
def numRecords (c T : ℕ) : ℕ := (T + c - 1) / c

/-- Peeling one stride off `numRecords`. -/
theorem numRecords_succ (c x : ℕ) (hc : 0 < c) (hx : 0 < x) :
    numRecords c x = numRecords c (x - c) + 1 := by
  unfold numRecords
  rcases le_or_lt c x with h | h
  · have h1 : x - c + c - 1 = x - 1 := by omega
    have h2 : x + c - 1 = (x - 1) + c := by omega
    rw [h1, h2, Nat.add_div_right _ hc]
  · have h1 : x - c = 0 := by omega
    have h2 : (0 + c - 1) / c = 0 := Nat.div_eq_of_lt (by omega)
    have h3 : (x + c - 1) / c = 1 := by
      apply Nat.div_eq_of_lt_le (by omega) (by omega)
    rw [h1, h2, h3]

/-- `numRecords` of an empty range. -/
theorem numRecords_zero (c : ℕ) (hc : 0 < c) : numRecords c 0 = 0 := by
  unfold numRecords
  exact Nat.div_eq_of_lt (by omega)

/-- Closed form of the save loop's offsets. -/
theorem chunkOffsets_eq (c T : ℕ) (hc : 0 < c) :
    ∀ o, chunkOffsets c T o = List.range' o (numRecords c (T - o)) c := by
  intro o
  induction o using chunkOffsets.induct c T with
  | case1 o h ih =>
    rw [chunkOffsets, dif_pos h, ih]
    have harith : numRecords c (T - o) = numRecords c (T - (o + c)) + 1 := by
      have := numRecords_succ c (T - o) hc (by omega)
      have heq : T - o - c = T - (o + c) := by omega
      rw [heq] at this
      exact this
    rw [harith, List.range'_succ]
  | case2 o h =>
    rw [chunkOffsets, dif_neg h]
    have ho : T - o = 0 := by
      rcases Nat.lt_or_ge o T with h' | h'
      · exact absurd ⟨hc, h'⟩ h
      · omega
    rw [ho, numRecords_zero c hc]
    rfl

/-- The save writes exactly the records at offsets `0, c, 2c, …`. -/
theorem audioBufferToRecords_eq (D : ℕ) (name : String) (ab : AudioBuffer)
    (hc : 0 < ab.rate * D) :
    audioBufferToRecords D name ab
      = (List.range' 0 (numRecords (ab.rate * D) ab.length) (ab.rate * D)).map
          (mkRecord D name ab) := by
  unfold audioBufferToRecords
  rw [chunkOffsets_eq _ _ hc 0, Nat.sub_zero]

/-- The chunk key `offset / rate` equals `m · D` exactly for the `m`-th
record. -/
theorem record_key_eq_iff (ab : AudioBuffer) (D : ℕ) (hr : 0 < ab.rate)
    (hD : 0 < D) (j m : ℕ) :
    ((j * (ab.rate * D) : ℕ) : ℚ) / (ab.rate : ℚ) = (m : ℚ) * (D : ℚ) ↔ j = m := by
  have hrq : (0 : ℚ) < (ab.rate : ℚ) := by exact_mod_cast hr
  have hDq : (0 : ℚ) < (D : ℚ) := by exact_mod_cast hD
  rw [div_eq_iff hrq.ne']
  push_cast
  constructor
  · intro h
    have hX : ((ab.rate : ℚ) * (D : ℚ)) ≠ 0 := by positivity
    have h' : (j : ℚ) * ((ab.rate : ℚ) * (D : ℚ))
        = (m : ℚ) * ((ab.rate : ℚ) * (D : ℚ)) := by linear_combination h
    exact_mod_cast mul_right_cancel₀ hX h'
  · rintro rfl
    ring

/-- Looking up key `m · D` among the saved records finds the `m`-th. -/
theorem find?_range'_records (D : ℕ) (name : String) (ab : AudioBuffer)
    (hr : 0 < ab.rate) (hD : 0 < D) (m : ℕ) :
    ∀ (cnt j : ℕ), j ≤ m → m < j + cnt →
      (((List.range' (j * (ab.rate * D)) cnt (ab.rate * D)).map
          (mkRecord D name ab)).find?
        (fun c => c.name == name && c.seconds == ((m : ℚ) * (D : ℚ))))
        = some (mkRecord D name ab (m * (ab.rate * D))) := by
  intro cnt
  induction cnt with
  | zero =>
    intro j h1 h2
    omega
  | succ n ih =>
    intro j h1 h2
    rw [List.range'_succ, List.map_cons]
    rcases eq_or_lt_of_le h1 with rfl | hlt
    · refine List.find?_cons_of_pos _ ?_
      simp only [mkRecord, Bool.and_eq_true, beq_iff_eq]
      exact ⟨by trivial, (record_key_eq_iff ab D hr hD j j).mpr rfl⟩
    · rw [List.find?_cons_of_neg]
      · have hstep : j * (ab.rate * D) + ab.rate * D = (j + 1) * (ab.rate * D) := by
          ring
        rw [hstep]
        exact ih (j + 1) hlt (by omega)
      · simp only [mkRecord, Bool.and_eq_true, beq_iff_eq, not_and]
        intro _
        intro hkey
        exact absurd ((record_key_eq_iff ab D hr hD j m).mp hkey) (by omega)

/-- The saved database resolves every in-range chunk key `m · D`. -/
theorem findChunk_saved (db : DBState) (D : ℕ) (name : String)
    (ab : AudioBuffer) (hD : 0 < D) (hr : 0 < ab.rate) (m : ℕ)
    (hm : m * (ab.rate * D) < ab.length) :
    findChunk (saveAudioBuffer db D name ab).2 name ((m : ℚ) * (D : ℚ))
      = some (mkRecord D name ab (m * (ab.rate * D))) := by
  have hc : 0 < ab.rate * D := Nat.mul_pos hr hD
  have hmlt : m < numRecords (ab.rate * D) ab.length := by
    have hle : m + 1 ≤ (ab.length + ab.rate * D - 1) / (ab.rate * D) := by
      rw [Nat.le_div_iff_mul_le hc, Nat.succ_mul]
      omega
    unfold numRecords
    omega
  show (((audioBufferToRecords D name ab) ++ db.chunks).find? _) = _
  rw [List.find?_append, audioBufferToRecords_eq D name ab hc]
  have h0 : (0 : ℕ) * (ab.rate * D) = 0 := by ring
  rw [← h0]
  rw [find?_range'_records D name ab hr hD m
    (numRecords (ab.rate * D) ab.length) 0 (Nat.zero_le m) (by omega)]
  rfl

/-! ## C7 — chunks are complete whenever metadata exists -/

/-- `⌈T / c⌉` over `ℚ` agrees with the natural-number ceiling division. -/
theorem ceil_div_toNat (T c : ℕ) (hc : 0 < c) :
    (⌈(T : ℚ) / (c : ℚ)⌉).toNat = numRecords c T := by
  rcases Nat.eq_zero_or_pos T with rfl | hT
  · simp [numRecords_zero c hc]
  · have hcq : (0 : ℚ) < (c : ℚ) := by exact_mod_cast hc
    set n := numRecords c T with hn
    have hmod : c * n + (T + c - 1) % c = T + c - 1 := by
      rw [hn]
      unfold numRecords
      exact Nat.div_add_mod (T + c - 1) c
    have hrem : (T + c - 1) % c < c := Nat.mod_lt _ hc
    have hT_le : T ≤ c * n := by omega
    have hlow : c * n + 1 ≤ T + c := by omega
    have hceil : ⌈(T : ℚ) / (c : ℚ)⌉ = (n : ℤ) := by
      rw [Int.ceil_eq_iff]
      constructor
      · rw [lt_div_iff₀ hcq]
        have hZ : ((n : ℤ) - 1) * (c : ℤ) < (T : ℤ) := by
          have hc1 : (c : ℤ) * (n : ℤ) + 1 ≤ (T : ℤ) + c := by exact_mod_cast hlow
          nlinarith
        calc ((n : ℚ) - 1) * (c : ℚ) = (((n : ℤ) - 1) * (c : ℤ) : ℤ) := by push_cast; ring
        _ < ((T : ℤ) : ℚ) := by exact_mod_cast hZ
        _ = (T : ℚ) := by push_cast; rfl
      · rw [div_le_iff₀ hcq]
        have hZ : (T : ℤ) ≤ (n : ℤ) * (c : ℤ) := by
          have : (T : ℤ) ≤ (c : ℤ) * (n : ℤ) := by exact_mod_cast hT_le
          linarith [this]
        calc (T : ℚ) = ((T : ℤ) : ℚ) := by push_cast; rfl
        _ ≤ (((n : ℤ) * (c : ℤ) : ℤ) : ℚ) := by exact_mod_cast hZ
        _ = (n : ℚ) * (c : ℚ) := by push_cast; ring
    rw [hceil, Int.toNat_natCast]

/-- The saved metadata's `chunks` count equals the number of chunk
records the save loop writes. -/
theorem metadata_chunks_eq (D : ℕ) (name : String) (ab : AudioBuffer)
    (hD : 0 < D) (hr : 0 < ab.rate) :
    (audioBufferToMetadata D name ab).chunks
      = numRecords (ab.rate * D) ab.length := by
  have hdd : ab.duration / (D : ℚ) = (ab.length : ℚ) / ((ab.rate * D : ℕ) : ℚ) := by
    unfold AudioBuffer.duration
    push_cast
    rw [div_div]
  show (⌈ab.duration / (D : ℚ)⌉).toNat = _
  rw [hdd, ceil_div_toNat _ _ (Nat.mul_pos hr hD)]

/-- The spec's reader-visible invariant: every metadata record present in
the store has all of its asset's chunk records present (chunk `i` lives
at start-second `i · D`). -/
def chunksComplete (D : ℕ) (db : DBState) : Prop :=
  ∀ md ∈ db.metadata, ∀ i, i < md.chunks →
    (findChunk db md.name ((i : ℚ) * (D : ℚ))).isSome = true

/-- Writing additional chunk records never removes one. -/
theorem findChunk_mono (db : DBState) (recs : List ChunkRecord)
    (name : String) (sec : ℚ)
    (h : (findChunk db name sec).isSome = true) :
    (findChunk (saveChunks db recs) name sec).isSome = true := by
  unfold findChunk saveChunks at *
  rw [List.find?_append]
  cases hf : recs.find? (fun c => c.name == name && c.seconds == sec) with
  | none => rw [Option.none_or]; exact h
  | some c => rfl

/-- **C7.** `saveAudioBuffer` writes all chunk records and awaits their
completion before writing the asset's single metadata record: in every
database state reached during the save — before any write, after the
chunks write, after the metadata write — if a metadata record exists
then every one of that asset's chunk records exists, provided the
invariant held beforehand.  A reader never observes metadata for an
asset whose chunks are incomplete. -/
theorem saveAudioBuffer_chunks_before_metadata (db : DBState) (D : ℕ)
    (name : String) (ab : AudioBuffer) (hD : 0 < D) (hr : 0 < ab.rate)
    (hinv : chunksComplete D db) :
    ∀ st ∈ saveAudioBufferStates db D name ab, chunksComplete D st := by
  have hc : 0 < ab.rate * D := Nat.mul_pos hr hD
  have hmid : chunksComplete D (saveChunks db (audioBufferToRecords D name ab)) := by
    intro md hmd i hi
    exact findChunk_mono db _ _ _ (hinv md hmd i hi)
  intro st hst
  simp only [saveAudioBufferStates, List.mem_cons, List.not_mem_nil,
    or_false] at hst
  rcases hst with rfl | rfl | rfl
  · exact hinv
  · exact hmid
  · intro md hmd i hi
    rcases List.mem_cons.mp hmd with rfl | hold
    · -- the freshly written metadata record
      rw [metadata_chunks_eq D name ab hD hr] at hi
      rcases Nat.eq_zero_or_pos ab.length with hT | hT
      · rw [hT, numRecords_zero _ hc] at hi
        omega
      · have hic : i * (ab.rate * D) < ab.length := by
          have hle : i + 1 ≤ (ab.length + ab.rate * D - 1) / (ab.rate * D) := hi
          rw [Nat.le_div_iff_mul_le hc, Nat.succ_mul] at hle
          omega
        have hfound := findChunk_saved db D name ab hD hr i hic
        have hname : (audioBufferToMetadata D name ab).name = name := rfl
        rw [hname]
        show (findChunk (saveAudioBuffer db D name ab).2 name ((i : ℚ) * (D : ℚ))).isSome = true
        rw [hfound]
        rfl
    · -- a previously present metadata record
      exact findChunk_mono db _ _ _ (hinv md hold i hi)

/-- Witness for C7: the invariant holds of the state after saving a
one-sample asset into an empty store. -/
theorem saveAudioBuffer_chunks_before_metadata_witness :
    chunksComplete 5 (saveAudioBuffer ⟨[], []⟩ 5 "a" ⟨1, [[0]]⟩).2 := by
  have h := saveAudioBuffer_chunks_before_metadata ⟨[], []⟩ 5 "a" ⟨1, [[0]]⟩
    (by norm_num) (by norm_num) (by intro md hmd; cases hmd)
  exact h _ (by
    simp [saveAudioBufferStates, saveAudioBuffer, saveMetadata, saveChunks])

/-! ## Read-side closed forms (toward C1, C2) -/

/-- A natural multiple of `b` also has JavaScript remainder `0`. -/
theorem jsRem_nat_mul (m : ℕ) (b : ℚ) (hb : b ≠ 0) :
    jsRem ((m : ℚ) * b) b = 0 := by
  have h : ((m : ℚ)) = ((m : ℤ) : ℚ) := by push_cast; rfl
  rw [h]
  exact jsRem_int_mul m b hb

/-- Closed form of `getAudioBuffer`'s request loop, started at the
`m`-th multiple of `D`. -/
theorem chunkStarts_eq_range' (D : ℕ) (hD : 0 < D) (lo lim : ℚ) :
    ∀ (n m : ℕ), (⌈(lim + lo) / (D : ℚ)⌉ - m).toNat = n →
      chunkStarts D lo lim ((m : ℚ) * (D : ℚ))
        = (List.range' m n).map (fun (k : ℕ) => (k : ℚ) * (D : ℚ)) := by
  have hDq : (0 : ℚ) < (D : ℚ) := by exact_mod_cast hD
  intro n
  induction n with
  | zero =>
    intro m hm
    have hge : ⌈(lim + lo) / (D : ℚ)⌉ ≤ (m : ℤ) := by omega
    have hcond : ¬((m : ℚ) * (D : ℚ) - lo < lim) := by
      intro hlt
      have h1 : (m : ℚ) * (D : ℚ) < lim + lo := by linarith
      have h2 : (m : ℚ) < (lim + lo) / (D : ℚ) := by
        rw [lt_div_iff₀ hDq]
        exact h1
      have h3 : (m : ℤ) < ⌈(lim + lo) / (D : ℚ)⌉ := Int.lt_ceil.mpr h2
      omega
    rw [chunkStarts, dif_neg (by tauto)]
    rfl
  | succ n ih =>
    intro m hm
    have hlt : (m : ℤ) < ⌈(lim + lo) / (D : ℚ)⌉ := by omega
    have hmq : (m : ℚ) < (lim + lo) / (D : ℚ) := Int.lt_ceil.mp hlt
    have hcond : (m : ℚ) * (D : ℚ) - lo < lim := by
      rw [lt_div_iff₀ hDq] at hmq
      linarith
    rw [chunkStarts, dif_pos ⟨hD, hcond⟩]
    have hstep : (m : ℚ) * (D : ℚ) + (D : ℚ) = ((m + 1 : ℕ) : ℚ) * (D : ℚ) := by
      push_cast
      ring
    rw [hstep, ih (m + 1) (by omega), List.range'_succ, List.map_cons]

/-- `Promise.all` of the `#getChunk` fetches succeeds on a saved store
and yields exactly the saved records. -/
theorem fetchChunks_saved (db : DBState) (D : ℕ) (name : String)
    (ab : AudioBuffer) (hD : 0 < D) (hr : 0 < ab.rate) :
    ∀ (n a : ℕ), (∀ m, a ≤ m → m < a + n → m * (ab.rate * D) < ab.length) →
      fetchChunks (saveAudioBuffer db D name ab).2 D name
          ((List.range' a n).map (fun (k : ℕ) => (k : ℚ) * (D : ℚ)))
        = Except.ok ((List.range' a n).map
            (fun m => mkRecord D name ab (m * (ab.rate * D)))) := by
  have hDq : ((D : ℚ)) ≠ 0 := by
    exact_mod_cast (Nat.cast_pos.mpr hD).ne'
  intro n
  induction n with
  | zero =>
    intro a _
    rfl
  | succ n ih =>
    intro a hbound
    rw [List.range'_succ, List.map_cons, List.map_cons]
    unfold fetchChunks getChunk
    rw [if_neg (not_not_intro (jsRem_nat_mul a (D : ℚ) hDq))]
    rw [findChunk_saved db D name ab hD hr a (hbound a le_rfl (by omega))]
    rw [ih (a + 1) (fun m h1 h2 => hbound m (by omega) (by omega))]

/-- Concatenating the per-channel data of consecutive saved chunks is a
contiguous slice of the original channel. -/
theorem flatten_slices (l : List ℚ) (c T : ℕ) (hT : l.length = T) :
    ∀ (n a : ℕ),
      ((List.range' a n).map
          (fun m => (l.drop (m * c)).take (min c (T - m * c)))).flatten
        = (l.drop (a * c)).take (min (n * c) (T - a * c)) := by
  intro n
  induction n with
  | zero =>
    intro a
    simp
  | succ n ih =>
    intro a
    rw [List.range'_succ, List.map_cons, List.flatten_cons, ih (a + 1)]
    have hXlen : (l.drop (a * c)).length = T - a * c := by
      rw [List.length_drop, hT]
    have hdd : l.drop ((a + 1) * c) = (l.drop (a * c)).drop c := by
      rw [List.drop_drop]
      congr 1
      ring
    have hsm : (n + 1) * c = n * c + c := by ring
    rcases le_or_lt c (T - a * c) with hcase | hcase
    · -- a full chunk fits before the tail
      have hmin1 : min c (T - a * c) = c := min_eq_left hcase
      have harg : T - (a + 1) * c = T - a * c - c := by
        have : (a + 1) * c = a * c + c := by ring
        omega
      rw [hmin1, hdd, harg]
      rw [← List.take_add]
      congr 1
      have h1 : min (n * c + c) (T - a * c) = c + min (n * c) (T - a * c - c) := by
        omega
      omega
    · -- the tail chunk: everything that remains
      have hmin1 : min c (T - a * c) = T - a * c := min_eq_right (le_of_lt hcase)
      have htail : T - (a + 1) * c = 0 := by
        have : (a + 1) * c = a * c + c := by ring
        omega
      rw [hmin1, htail]
      have hz : min (n * c) 0 = 0 := Nat.min_zero _
      rw [hz, List.take_zero, List.append_nil]
      have hfull : (l.drop (a * c)).take (T - a * c) = l.drop (a * c) := by
        rw [← hXlen]
        exact List.take_length ..
      have hmin2 : min ((n + 1) * c) (T - a * c) = T - a * c := by
        rw [hsm]
        omega
      rw [hfull, hmin2, ← hXlen, List.take_length]

/-- `getD` of a mapped list below its length. -/
theorem getD_map_lt {α β : Type} (l : List α) (f : α → β) (j : ℕ) (d : β)
    (hj : j < l.length) :
    (l.map f).getD j d = f l[j] := by
  rw [List.getD_eq_getElem?_getD, List.getElem?_map,
    List.getElem?_eq_getElem hj]
  rfl

/-- Slicing `[f, f + Sn)` out of the merged (clipped) chunk data equals
slicing the original channel at `a·c + f`. -/
theorem slice_window (ch : List ℚ) (c T N a f Sn : ℕ)
    (h1 : f + Sn ≤ N * c) (h2 : a * c + f + Sn ≤ T) :
    (((ch.drop (a * c)).take (min (N * c) (T - a * c))).drop f).take Sn
      = (ch.drop (a * c + f)).take Sn := by
  rw [List.drop_take, List.take_take]
  have hmin : min Sn (min (N * c) (T - a * c) - f) = Sn := by omega
  rw [hmin, List.drop_drop]

/-- `#mergeChunks` over the records covering chunk multiples
`a, …, a+N-1`, sliced to `[f, f+Sn)`, reproduces the per-channel slices
`[a·c + f, a·c + f + Sn)` of the original asset. -/
theorem mergeChunks_saved (ab : AudioBuffer) (D : ℕ) (name : String)
    (hr : 0 < ab.rate) (hD : 0 < D)
    (hch : ∀ ch ∈ ab.data, ch.length = ab.length)
    (a N f Sn : ℕ)
    (h1 : f + Sn ≤ N * (ab.rate * D))
    (h2 : a * (ab.rate * D) + f + Sn ≤ ab.length)
    (hSn : 0 < Sn) :
    mergeChunks
        ((List.range' a N).map (fun m => mkRecord D name ab (m * (ab.rate * D))))
        (audioBufferToMetadata D name ab) f (f + Sn)
      = Except.ok
          { rate := ab.rate
            data := ab.data.map (fun ch =>
              (ch.drop (a * (ab.rate * D) + f)).take Sn) } := by
  set c := ab.rate * D with hc
  set T := ab.length with hT
  unfold mergeChunks
  have hsamp : f + Sn - f = Sn := by omega
  rw [hsamp, if_neg (by omega : ¬Sn = 0)]
  simp only [Except.ok.injEq, AudioBuffer.mk.injEq]
  refine ⟨rfl, ?_⟩
  have hchan : (audioBufferToMetadata D name ab).channels = ab.data.length := rfl
  rw [hchan, List.map_map, List.map_map]
  apply List.ext_getElem
  · rw [List.length_map, List.length_range, List.length_map]
  · intro j hj1 hj2
    rw [List.length_map, List.length_range] at hj1
    simp only [List.getElem_map, List.getElem_range, Function.comp_apply]
    have hmaps : ((List.range' a N).map
          (fun m => mkRecord D name ab (m * c))).map
            (fun r => r.channels.getD j [])
        = (List.range' a N).map
            (fun m => ((ab.data[j]).drop (m * c)).take (min c (T - m * c))) := by
      rw [List.map_map]
      apply List.map_congr_left
      intro m _
      show (mkRecord D name ab (m * c)).channels.getD j [] = _
      simp only [mkRecord]
      rw [getD_map_lt ab.data _ j [] hj1]
    rw [hmaps, flatten_slices (ab.data[j]) c T
      (hch (ab.data[j]) (List.getElem_mem hj1)) N a]
    rw [slice_window (ab.data[j]) c T N a f Sn h1 h2]
    have hlen : ((ab.data[j].drop (a * c + f)).take Sn).length = Sn := by
      rw [List.length_take, List.length_drop,
        hch (ab.data[j]) (List.getElem_mem hj1)]
      omega
    rw [hlen]
    have hrep : Sn - Sn = 0 := by omega
    rw [hrep, List.replicate_zero, List.append_nil]

/-- Central window lemma: reading `[offset, offset+duration)` of a saved
asset succeeds and returns exactly the per-channel slices
`[⌊offset·rate⌋, ⌊offset·rate⌋ + ⌈duration·rate⌉)` of the original. -/
theorem getAudioBuffer_saved (db : DBState) (D : ℕ) (name : String)
    (ab : AudioBuffer) (offset duration : ℚ)
    (hD : 0 < D) (hr : 0 < ab.rate)
    (hch : ∀ ch ∈ ab.data, ch.length = ab.length)
    (hoff : 0 ≤ offset) (hdur : 0 < duration)
    (hrange : offset + duration ≤ ab.duration) :
    getAudioBuffer (saveAudioBuffer db D name ab).2 D name offset duration
      = Except.ok
          { rate := ab.rate
            data := ab.data.map (fun ch =>
              (ch.drop (⌊offset * (ab.rate : ℚ)⌋).toNat).take
                (⌈duration * (ab.rate : ℚ)⌉).toNat) }
    ∧ (⌊offset * (ab.rate : ℚ)⌋).toNat + (⌈duration * (ab.rate : ℚ)⌉).toNat
        ≤ ab.length := by
  have hDq : (0 : ℚ) < (D : ℚ) := by exact_mod_cast hD
  have hrq : (0 : ℚ) < (ab.rate : ℚ) := by exact_mod_cast hr
  have hfm : findMetadata (saveAudioBuffer db D name ab).2 name
      = some (audioBufferToMetadata D name ab) :=
    List.find?_cons_of_pos _ (by simp [audioBufferToMetadata])
  have hmdrate : (audioBufferToMetadata D name ab).rate = ab.rate := rfl
  simp only [getAudioBuffer, hfm]
  rw [if_neg (show ¬(offset + duration > (audioBufferToMetadata D name ab).duration)
    from not_lt.mpr hrange)]
  simp only [hmdrate]
  set aZ : ℤ := ⌊offset / (D : ℚ)⌋ with haZdef
  have haZ0 : 0 ≤ aZ := Int.floor_nonneg.mpr (by positivity)
  set a : ℕ := aZ.toNat with hadef
  have haZeq : ((a : ℕ) : ℤ) = aZ := Int.toNat_of_nonneg haZ0
  have haQ : ((aZ : ℤ) : ℚ) = (a : ℚ) := by exact_mod_cast haZeq.symm
  rw [haQ]
  -- cursor arithmetic facts
  have hsle : (a : ℚ) * (D : ℚ) ≤ offset := by
    have h1 : ((aZ : ℤ) : ℚ) ≤ offset / (D : ℚ) := by
      rw [haZdef]
      exact Int.floor_le _
    rw [haQ] at h1
    calc (a : ℚ) * (D : ℚ) ≤ (offset / (D : ℚ)) * (D : ℚ) :=
          mul_le_mul_of_nonneg_right h1 hDq.le
    _ = offset := div_mul_cancel₀ offset hDq.ne'
  have hlo0 : 0 ≤ offset - (a : ℚ) * (D : ℚ) := by linarith
  set q : ℚ := (offset + duration) / (D : ℚ) with hqdef
  set N : ℕ := (⌈q⌉ - (a : ℤ)).toNat with hNdef
  have haq : (a : ℤ) < ⌈q⌉ := by
    apply Int.lt_ceil.mpr
    rw [hqdef, lt_div_iff₀ hDq]
    push_cast
    linarith
  have hNpos : (N : ℤ) = ⌈q⌉ - (a : ℤ) := by
    rw [hNdef]
    omega
  -- the requested chunk starts
  have hreq : requestedChunkStarts D offset duration
      = (List.range' a N).map (fun (k : ℕ) => (k : ℚ) * (D : ℚ)) := by
    simp only [requestedChunkStarts]
    rw [← haZdef, haQ]
    rw [chunkStarts_eq_range' D hD (offset - (a : ℚ) * (D : ℚ))
      ((a : ℚ) * (D : ℚ) + duration) N a ?side]
    case side =>
      have harg : ((a : ℚ) * (D : ℚ) + duration) + (offset - (a : ℚ) * (D : ℚ))
          = offset + duration := by ring
      rw [harg, ← hqdef, hNdef]
  -- every requested multiple is a saved chunk
  have hbound : ∀ m, a ≤ m → m < a + N → m * (ab.rate * D) < ab.length := by
    intro m hm1 hm2
    have hmZ : (m : ℤ) < ⌈q⌉ := by omega
    have hmq : (m : ℚ) < q := Int.lt_ceil.mp hmZ
    rw [hqdef, lt_div_iff₀ hDq] at hmq
    have hTr : offset + duration ≤ (ab.length : ℚ) / (ab.rate : ℚ) := hrange
    have hfin : ((m * (ab.rate * D) : ℕ) : ℚ) < (ab.length : ℚ) := by
      push_cast
      have h3 : (m : ℚ) * ((ab.rate : ℚ) * (D : ℚ))
          = ((m : ℚ) * (D : ℚ)) * (ab.rate : ℚ) := by ring
      rw [h3]
      calc ((m : ℚ) * (D : ℚ)) * (ab.rate : ℚ)
          < (offset + duration) * (ab.rate : ℚ) :=
            mul_lt_mul_of_pos_right hmq hrq
      _ ≤ ((ab.length : ℚ) / (ab.rate : ℚ)) * (ab.rate : ℚ) :=
            mul_le_mul_of_nonneg_right hTr hrq.le
      _ = (ab.length : ℚ) := div_mul_cancel₀ _ hrq.ne'
    exact_mod_cast hfin
  -- window indices
  set fZ : ℤ := ⌊(offset - (a : ℚ) * (D : ℚ)) * (ab.rate : ℚ)⌋ with hfZdef
  have hfZ0 : 0 ≤ fZ := Int.floor_nonneg.mpr (mul_nonneg hlo0 hrq.le)
  set SZ : ℤ := ⌈duration * (ab.rate : ℚ)⌉ with hSZdef
  have hSZ0 : 0 < SZ := Int.ceil_pos.mpr (by positivity)
  set f : ℕ := fZ.toNat with hfdef
  set Sn : ℕ := SZ.toNat with hSndef
  have hlast : (fZ + SZ).toNat = f + Sn := by omega
  -- the two key sample-count bounds
  have hfloor_ceil : fZ + SZ
      ≤ ⌈((offset - (a : ℚ) * (D : ℚ)) + duration) * (ab.rate : ℚ)⌉ := by
    have h2 : ⌈duration * (ab.rate : ℚ) + ((fZ : ℤ) : ℚ)⌉ = SZ + fZ := by
      rw [Int.ceil_add_int, hSZdef]
    have h3 : duration * (ab.rate : ℚ) + ((fZ : ℤ) : ℚ)
        ≤ ((offset - (a : ℚ) * (D : ℚ)) + duration) * (ab.rate : ℚ) := by
      have h4 : ((fZ : ℤ) : ℚ) ≤ (offset - (a : ℚ) * (D : ℚ)) * (ab.rate : ℚ) := by
        rw [hfZdef]
        exact Int.floor_le _
      nlinarith
    calc fZ + SZ = SZ + fZ := by ring
    _ = ⌈duration * (ab.rate : ℚ) + ((fZ : ℤ) : ℚ)⌉ := h2.symm
    _ ≤ _ := Int.ceil_le_ceil h3
  have hkeyQ1 : ((offset - (a : ℚ) * (D : ℚ)) + duration) * (ab.rate : ℚ)
      ≤ ((N * (ab.rate * D) : ℕ) : ℚ) := by
    have hqD : q * (D : ℚ) = offset + duration := by
      rw [hqdef]
      exact div_mul_cancel₀ _ hDq.ne'
    have hceilq : ((⌈q⌉ : ℤ) : ℚ) = (N : ℚ) + (a : ℚ) := by
      have : ⌈q⌉ = (N : ℤ) + (a : ℤ) := by omega
      exact_mod_cast this
    have hND : offset + duration ≤ ((N : ℚ) + (a : ℚ)) * (D : ℚ) := by
      calc offset + duration = q * (D : ℚ) := hqD.symm
      _ ≤ ((⌈q⌉ : ℤ) : ℚ) * (D : ℚ) :=
            mul_le_mul_of_nonneg_right (Int.le_ceil q) hDq.le
      _ = ((N : ℚ) + (a : ℚ)) * (D : ℚ) := by rw [hceilq]
    calc ((offset - (a : ℚ) * (D : ℚ)) + duration) * (ab.rate : ℚ)
        = ((offset + duration) - (a : ℚ) * (D : ℚ)) * (ab.rate : ℚ) := by ring
    _ ≤ (((N : ℚ) + (a : ℚ)) * (D : ℚ) - (a : ℚ) * (D : ℚ)) * (ab.rate : ℚ) :=
          mul_le_mul_of_nonneg_right (by linarith) hrq.le
    _ = ((N * (ab.rate * D) : ℕ) : ℚ) := by push_cast; ring
  have hkey1 : f + Sn ≤ N * (ab.rate * D) := by
    have hZ : fZ + SZ ≤ ((N * (ab.rate * D) : ℕ) : ℤ) := by
      refine le_trans hfloor_ceil ?_
      rw [Int.ceil_le]
      exact_mod_cast hkeyQ1
    omega
  have hkeyQ2 : ((offset - (a : ℚ) * (D : ℚ)) + duration) * (ab.rate : ℚ)
      ≤ (ab.length : ℚ) - ((a * (ab.rate * D) : ℕ) : ℚ) := by
    have hTr : offset + duration ≤ (ab.length : ℚ) / (ab.rate : ℚ) := hrange
    have h5 : (offset + duration) * (ab.rate : ℚ)
        ≤ ((ab.length : ℚ) / (ab.rate : ℚ)) * (ab.rate : ℚ) :=
      mul_le_mul_of_nonneg_right hTr hrq.le
    rw [div_mul_cancel₀ _ hrq.ne'] at h5
    have h6 : ((a * (ab.rate * D) : ℕ) : ℚ)
        = (a : ℚ) * (D : ℚ) * (ab.rate : ℚ) := by push_cast; ring
    nlinarith
  have hkey2 : a * (ab.rate * D) + f + Sn ≤ ab.length := by
    have hZ : fZ + SZ ≤ (ab.length : ℤ) - ((a * (ab.rate * D) : ℕ) : ℤ) := by
      refine le_trans hfloor_ceil ?_
      rw [Int.ceil_le]
      push_cast
      push_cast at hkeyQ2
      linarith
    omega
  -- global window start
  have hacf : a * (ab.rate * D) + f = (⌊offset * (ab.rate : ℚ)⌋).toNat := by
    have harith : offset * (ab.rate : ℚ)
        = (offset - (a : ℚ) * (D : ℚ)) * (ab.rate : ℚ)
          + (((a * (ab.rate * D) : ℕ) : ℤ) : ℚ) := by
      push_cast
      ring
    have hfl : ⌊offset * (ab.rate : ℚ)⌋ = fZ + ((a * (ab.rate * D) : ℕ) : ℤ) := by
      rw [harith, Int.floor_add_int, ← hfZdef]
    rw [hfl]
    omega
  -- assemble
  constructor
  · rw [hreq, fetchChunks_saved db D name ab hD hr N a hbound, hlast]
    refine Eq.trans
      (mergeChunks_saved ab D name hr hD hch a N f Sn hkey1 hkey2 (by omega)) ?_
    rw [hacf]
  · omega

/-! ## C2 — windowing, and C1 — round trip -/

/-- **C2 (counterexample).** The claim as stated covers every `duration`
with `0 ≤ offset` and `offset + duration ≤ totalDuration`, including
`duration = 0` — but there the code does not return a window of
`⌈0 · sampleRate⌉ = 0` samples: `ac.createBuffer` throws
`NotSupportedError` on the zero-length buffer, so
`getAudioBuffer(name, 0, 0)` on a saved one-second asset rejects. -/
theorem getAudioBuffer_zero_duration_rejects :
    (0 : ℚ) ≤ 0
    ∧ (0 : ℚ) + 0 ≤ (audioBufferToMetadata 5 "z" ⟨1, [[3]]⟩).duration
    ∧ getAudioBuffer (saveAudioBuffer ⟨[], []⟩ 5 "z" ⟨1, [[3]]⟩).2 5 "z" 0 0
        = Except.error Err.notSupported := by
  refine ⟨le_rfl, ?_, ?_⟩
  · show (0 : ℚ) + 0 ≤ (1 : ℚ) / 1
    norm_num
  · have hreq : requestedChunkStarts 5 (0 : ℚ) 0 = [] := by
      rw [requestedChunkStarts]
      norm_num
      rw [chunkStarts]
      norm_num
    have hfm : findMetadata (saveAudioBuffer ⟨[], []⟩ 5 "z" ⟨1, [[3]]⟩).2 "z"
        = some (audioBufferToMetadata 5 "z" ⟨1, [[3]]⟩) := by
      simp [findMetadata, saveAudioBuffer, saveMetadata, saveChunks,
        audioBufferToMetadata]
    simp only [getAudioBuffer, hfm]
    rw [if_neg (by
      show ¬((0 : ℚ) + 0 > (1 : ℚ) / 1)
      norm_num)]
    rw [hreq]
    have hff : fetchChunks (saveAudioBuffer ⟨[], []⟩ 5 "z" ⟨1, [[3]]⟩).2 5 "z" []
        = Except.ok [] := rfl
    rw [hff]
    norm_num [mergeChunks, audioBufferToMetadata]

/-- **C2 (amended).** For every saved asset and every window with
`0 ≤ offset`, `0 < duration` and `offset + duration ≤ totalDuration`,
`getAudioBuffer(name, offset, duration)` resolves with a buffer holding
exactly `⌈duration · sampleRate⌉` samples per channel — the slice
`[first, last)` of the merged chunk data with
`first = ⌊localOffset · sampleRate⌋` and
`last = first + ⌈duration · sampleRate⌉`, which is the slice
`[⌊offset · sampleRate⌋, ⌊offset · sampleRate⌋ + ⌈duration · sampleRate⌉)`
of the original channels — independently of where the fixed-size chunk
boundaries fall relative to `offset`. -/
theorem getAudioBuffer_windowing (db : DBState) (D : ℕ) (name : String)
    (ab : AudioBuffer) (offset duration : ℚ)
    (hD : 0 < D) (hr : 0 < ab.rate)
    (hch : ∀ ch ∈ ab.data, ch.length = ab.length)
    (hoff : 0 ≤ offset) (hdur : 0 < duration)
    (hrange : offset + duration ≤ (audioBufferToMetadata D name ab).duration) :
    ∃ wbuf : AudioBuffer,
      getAudioBuffer (saveAudioBuffer db D name ab).2 D name offset duration
        = Except.ok wbuf
      ∧ wbuf.rate = ab.rate
      ∧ wbuf.data = ab.data.map (fun ch =>
          (ch.drop (⌊offset * (ab.rate : ℚ)⌋).toNat).take
            (⌈duration * (ab.rate : ℚ)⌉).toNat)
      ∧ ∀ ch ∈ wbuf.data, ch.length = (⌈duration * (ab.rate : ℚ)⌉).toNat := by
  obtain ⟨heq, hbound⟩ :=
    getAudioBuffer_saved db D name ab offset duration hD hr hch hoff hdur hrange
  refine ⟨_, heq, rfl, rfl, ?_⟩
  intro ch' hch'
  rw [List.mem_map] at hch'
  obtain ⟨ch, hmem, rfl⟩ := hch'
  rw [List.length_take, List.length_drop, hch ch hmem]
  omega

/-- Witness for C2: a window at offset `1/2` s for `2` s of a `3` s
asset at rate `2` with chunk duration `D = 1` — the window spans three
chunk boundaries and returns exactly samples `[2, 3, 4, 5]`. -/
theorem getAudioBuffer_windowing_witness :
    ∃ wbuf : AudioBuffer,
      getAudioBuffer
          (saveAudioBuffer ⟨[], []⟩ 1 "w" ⟨2, [[1, 2, 3, 4, 5, 6]]⟩).2
          1 "w" (1 / 2) 2
        = Except.ok wbuf
      ∧ wbuf.data = [[2, 3, 4, 5]] := by
  obtain ⟨wbuf, heq, hrate, hdata, hlen⟩ :=
    getAudioBuffer_windowing ⟨[], []⟩ 1 "w" ⟨2, [[1, 2, 3, 4, 5, 6]]⟩ (1 / 2) 2
      (by norm_num) (by norm_num) (by decide) (by norm_num) (by norm_num)
      (by
        show (1 / 2 : ℚ) + 2 ≤ (6 : ℚ) / 2
        norm_num)
  refine ⟨wbuf, heq, ?_⟩
  rw [hdata]
  norm_num
  decide

/-- **C1.** Round trip: for every asset saved via
`saveAudioBuffer(name, buffer)` — any channel count, sample rate and
(positive) sample length — a subsequent
`getAudioBuffer(name, 0, totalDuration)` resolves with an `AudioBuffer`
whose per-channel sample sequences equal the original buffer's
per-channel samples exactly. -/
theorem saveAudioBuffer_roundTrip (db : DBState) (D : ℕ) (name : String)
    (ab : AudioBuffer)
    (hD : 0 < D) (hr : 0 < ab.rate) (hlen : 0 < ab.length)
    (hch : ∀ ch ∈ ab.data, ch.length = ab.length) :
    getAudioBuffer (saveAudioBuffer db D name ab).2 D name 0
        (audioBufferToMetadata D name ab).duration
      = Except.ok { rate := ab.rate, data := ab.data } := by
  have hrq : (0 : ℚ) < (ab.rate : ℚ) := by exact_mod_cast hr
  have hdpos : 0 < ab.duration := by
    unfold AudioBuffer.duration
    positivity
  have hmd : (audioBufferToMetadata D name ab).duration = ab.duration := rfl
  obtain ⟨heq, -⟩ := getAudioBuffer_saved db D name ab 0 ab.duration hD hr hch
    le_rfl hdpos (by rw [zero_add])
  rw [hmd, heq]
  have hzero : (⌊(0 : ℚ) * (ab.rate : ℚ)⌋).toNat = 0 := by norm_num
  have hfull : (⌈ab.duration * (ab.rate : ℚ)⌉).toNat = ab.length := by
    unfold AudioBuffer.duration
    rw [div_mul_cancel₀ _ hrq.ne', Int.ceil_natCast]
    exact Int.toNat_natCast _
  rw [hzero, hfull]
  have h1 : ab.data.map (fun ch => (ch.drop 0).take ab.length)
      = ab.data.map id :=
    List.map_congr_left (fun ch hm => by
      rw [List.drop_zero, ← hch ch hm, List.take_length]
      rfl)
  rw [h1, List.map_id]

/-- Witness for C1: a two-sample, one-channel asset round-trips through
an empty store. -/
theorem saveAudioBuffer_roundTrip_witness :
    getAudioBuffer (saveAudioBuffer ⟨[], []⟩ 5 "r" ⟨1, [[3, 7]]⟩).2 5 "r" 0
        (audioBufferToMetadata 5 "r" ⟨1, [[3, 7]]⟩).duration
      = Except.ok { rate := 1, data := [[3, 7]] } :=
  saveAudioBuffer_roundTrip ⟨[], []⟩ 5 "r" ⟨1, [[3, 7]]⟩ (by norm_num)
    (by norm_num) (by decide) (by decide)

end AudioStoreModel
